import Mathlib

/-!
Verification development for the customer / restricted-party screening tool
(`app.py` of the repository).  The screening core is shallowly embedded:

* the similarity scorer (`calculate_similarity`, which the source delegates to
  Python's `difflib.SequenceMatcher(None, a.lower(), b.lower()).ratio()`) is
  modelled faithfully, including the autojunk "popular element" heuristic and
  the two junk-free extension loops of `find_longest_match`, with the float
  ratio idealised as a rational number;
* the entity store (`add_customer`, `update_customer`, deletions, the Excel
  importers) and the match engine (`find_exact_matches`,
  `find_similar_matches`, `run_screening`, `update_hold_type`) are embedded as
  pure state-passing functions over a `Tool` record;
* Python dicts with an optional key are modelled with nested `Option`s
  (`none` = key absent, `some none` = key present with value `None`);
* `datetime.now()` is passed in as an explicit `now : String` argument;
* a second, reference-semantics model (`OTool`) makes object identity
  explicit: match records store indices of live heap cells, exactly as the
  Python dicts stored in `self.matches'` alias the dicts in `self.customers`.

Unicode caveats: Python's `str.lower` / `str.strip` are modelled by
ASCII `Char.toLower` and a whitespace predicate covering the ASCII whitespace
characters; all claims concern such strings.
-/

/-- Python whitespace test used by `str.strip()`, restricted to ASCII
whitespace (space, tab, newline, vertical tab, form feed, carriage return). -/
def pyIsSpace (c : Char) : Bool :=
  c.toNat = 32 || c.toNat = 9 || c.toNat = 10 || c.toNat = 11 ||
  c.toNat = 12 || c.toNat = 13

/-- Model of Python `str.strip()` on a list of characters: drop leading and
trailing whitespace. -/
def pyStrip (s : List Char) : List Char :=
  ((s.dropWhile pyIsSpace).reverse.dropWhile pyIsSpace).reverse

/-- Model of Python `str.strip()` returning a `String`. -/
def pyStripStr (s : String) : String :=
  String.mk (pyStrip s.data)

/-- Key used by `find_exact_matches`: the source compares
`name.lower().strip()` of both sides. -/
def lowerStrip (s : String) : List Char :=
  pyStrip (s.data.map Char.toLower)

/-!
Model of `difflib.SequenceMatcher` with `isjunk = None` (so the junk set is
empty and the two junk-extension loops of `find_longest_match` never fire)
and the default `autojunk = True`.
-/

/-- Popular-element test of `SequenceMatcher.__chain_b` (autojunk): an element
of `b` is dropped from `b2j` when `len(b) >= 200` and it occurs more than
`len(b) // 100 + 1` times in `b`. -/
def bpopular (b : List Char) (x : Char) : Bool :=
  decide (200 ≤ b.length) && decide (b.length / 100 + 1 < b.count x)

/-- One row of the `j2len` dynamic program of `find_longest_match`: entry `j`
of the new row is `j2len.get(j-1, 0) + 1` when `b[j]` equals the current
`a`-element `c` and is not popular (popular elements are absent from `b2j`),
else `0`.  `prev` is the previous row, `carry` is `prev[j-1]` for the head
position. -/
def newRow (pop : Char → Bool) (c : Char) : List Char → List Nat → Nat → List Nat
  | [], _, _ => []
  | x :: bs, prev, carry =>
    (if x = c ∧ pop x = false then carry + 1 else 0) ::
      newRow pop c bs prev.tail (prev.headD 0)

/-- Scan of one row of the dynamic program: Python updates
`besti, bestj, bestsize = i-k+1, j-k+1, k` whenever `k > bestsize`.  `i` is
the current row index, `j` the column of the head of `ks`, and `best` the
running `(besti, bestj, bestsize)`. -/
def rowBest (i : Nat) : List Nat → Nat → Nat × Nat × Nat → Nat × Nat × Nat
  | [], _, best => best
  | k :: ks, j, best =>
    rowBest i ks (j + 1) (if best.2.2 < k then (i + 1 - k, j + 1 - k, k) else best)

/-- Outer loop of `find_longest_match`: iterate over the elements of `a`
(row index `i`), carrying the previous `j2len` row and the running best. -/
def lcsLoop (pop : Char → Bool) : List Char → List Char → Nat → List Nat →
    Nat × Nat × Nat → Nat × Nat × Nat
  | [], _, _, _, best => best
  | c :: as, b, i, prev, best =>
    let row := newRow pop c b prev 0
    lcsLoop pop as b (i + 1) row (rowBest i row 0 best)

/-- Length of the common prefix of two character lists (used for the two
non-junk extension while-loops of `find_longest_match`). -/
def commonPrefixLen : List Char → List Char → Nat
  | x :: xs, y :: ys => if x = y then commonPrefixLen xs ys + 1 else 0
  | _, _ => 0

/-- Model of `SequenceMatcher.find_longest_match` on the (sub)sequences
`a`, `b`: the `j2len` dynamic program followed by the two extension loops
that grow the best block over equal adjacent elements (the further two loops
extend only over junk, and the junk set is empty for `isjunk = None`).
`pop` is the popularity predicate computed once from the full second
sequence. -/
def findLongestMatch (pop : Char → Bool) (a b : List Char) : Nat × Nat × Nat :=
  let best := lcsLoop pop a b 0 [] (0, 0, 0)
  let dl := commonPrefixLen (a.take best.1).reverse (b.take best.2.1).reverse
  let i := best.1 - dl
  let j := best.2.1 - dl
  let k := best.2.2 + dl
  let dr := commonPrefixLen (a.drop (i + k)) (b.drop (j + k))
  (i, j, k + dr)

/-- Total size of all matching blocks of `SequenceMatcher.get_matching_blocks`
(the quantity `M` of `ratio`): recursively take the longest match and recurse
on the left and right remainders.  The fuel argument mirrors the worklist of
the Python implementation; `matchTotal` below supplies enough fuel, since
every recursive call strictly shrinks `a.length + b.length`. -/
def matchTotalF (pop : Char → Bool) : Nat → List Char → List Char → Nat
  | 0, _, _ => 0
  | fuel + 1, a, b =>
    let m := findLongestMatch pop a b
    if m.2.2 = 0 then 0
    else
      matchTotalF pop fuel (a.take m.1) (b.take m.2.1) + m.2.2 +
        matchTotalF pop fuel (a.drop (m.1 + m.2.2)) (b.drop (m.2.1 + m.2.2))

/-- Sum of the sizes of the matching blocks of `a` and `b`. -/
def matchTotal (pop : Char → Bool) (a b : List Char) : Nat :=
  matchTotalF pop (a.length + b.length) a b

/-- Model of `difflib._calculate_ratio`: `2.0 * matches / length` when
`length` is nonzero, else `1.0`; the float is idealised as a rational. -/
def calculate_ratio (matches' length : Nat) : ℚ :=
  if length ≠ 0 then (2 * matches' : ℚ) / (length : ℚ) else 1

/-- Model of `CustomerRestrictedPartyTool.calculate_similarity`:
`SequenceMatcher(None, name1.lower(), name2.lower()).ratio()`. -/
def calculate_similarity (name1 name2 : String) : ℚ :=
  let a := name1.data.map Char.toLower
  let b := name2.data.map Char.toLower
  calculate_ratio (matchTotal (bpopular b) a b) (a.length + b.length)

/-!
Data model.  A match dict built by `find_exact_matches` carries the key
`hold_type` with value `None`, one built by `find_similar_matches` has no
`hold_type` key at all, and `update_hold_type` writes a string into it; the
field is therefore an `Option (Option String)`.  The `dtype` key is written
only by `update_hold_type`.
-/

/-- Customer record as built by `add_customer`. -/
structure Customer where
  id : Int
  name : String
  address : String
  phone : String
  email : String
  comments : String
  created_date : String
  modified_date : Option String := none
deriving DecidableEq, Repr, Inhabited

/-- Restricted-party record as built by `add_restricted_party`. -/
structure RestrictedParty where
  id : Int
  name : String
  reason : String
  source : String
  comments : String
  created_date : String
  modified_date : Option String := none
deriving DecidableEq, Repr, Inhabited

/-- Match record as built by the screening passes. -/
structure MatchRec where
  customer : Customer
  restricted_party : RestrictedParty
  similarity : ℚ
  match_type : String
  hold_type : Option (Option String)
  dtype : Option String := none
  match_date : String
deriving DecidableEq, Repr, Inhabited

/-- In-memory state of `CustomerRestrictedPartyTool` (the three JSON-backed
lists; persistence itself is plumbing outside the model). -/
structure Tool where
  customers : List Customer
  restricted_parties : List RestrictedParty
  matches' : List MatchRec
deriving DecidableEq, Repr, Inhabited

/-- Update payload for `update_customer`; Python merges every key present in
the request dict into the stored dict, including `id`, so each known field is
optional here (`none` = key absent from the payload). -/
structure CustomerPatch where
  id : Option Int := none
  name : Option String := none
  address : Option String := none
  phone : Option String := none
  email : Option String := none
  comments : Option String := none
deriving DecidableEq, Repr, Inhabited

/-- Update payload for `update_restricted_party`. -/
structure PartyPatch where
  id : Option Int := none
  name : Option String := none
  reason : Option String := none
  source : Option String := none
  comments : Option String := none
deriving DecidableEq, Repr, Inhabited

/-- Python `customer.update(data)` followed by stamping `modified_date`. -/
def applyCustomerPatch (c : Customer) (d : CustomerPatch) (now : String) : Customer :=
  { id := d.id.getD c.id
    name := d.name.getD c.name
    address := d.address.getD c.address
    phone := d.phone.getD c.phone
    email := d.email.getD c.email
    comments := d.comments.getD c.comments
    created_date := c.created_date
    modified_date := some now }

/-- Python `party.update(data)` followed by stamping `modified_date`. -/
def applyPartyPatch (p : RestrictedParty) (d : PartyPatch) (now : String) : RestrictedParty :=
  { id := d.id.getD p.id
    name := d.name.getD p.name
    reason := d.reason.getD p.reason
    source := d.source.getD p.source
    comments := d.comments.getD p.comments
    created_date := p.created_date
    modified_date := some now }

/-- Replace the first element satisfying `p` by its image under `f`,
returning the new element; this is the value-level rendering of Python's
`next(c for c in xs if ...)` followed by an in-place mutation. -/
def updateFirst {α : Type} (p : α → Bool) (f : α → α) : List α → Option α × List α
  | [] => (none, [])
  | a :: l =>
    if p a then (some (f a), f a :: l)
    else
      let r := updateFirst p f l
      (r.1, a :: r.2)

/-- Remove the first element satisfying `p`, returning it; value-level
rendering of `list.pop(index)` after an index search. -/
def deleteFirst {α : Type} (p : α → Bool) : List α → Option α × List α
  | [] => (none, [])
  | a :: l =>
    if p a then (some a, l)
    else
      let r := deleteFirst p l
      (r.1, a :: r.2)

/-- Model of `add_customer`: the id is the current list length plus one, the
string fields are stripped, and the record is appended. -/
def add_customer (t : Tool) (name address phone email comments now : String) :
    Tool × Customer :=
  let customer : Customer :=
    { id := (t.customers.length : Int) + 1
      name := pyStripStr name
      address := pyStripStr address
      phone := pyStripStr phone
      email := pyStripStr email
      comments := pyStripStr comments
      created_date := now }
  ({ t with customers := t.customers ++ [customer] }, customer)

/-- Model of `add_restricted_party`. -/
def add_restricted_party (t : Tool) (name reason source comments now : String) :
    Tool × RestrictedParty :=
  let party : RestrictedParty :=
    { id := (t.restricted_parties.length : Int) + 1
      name := pyStripStr name
      reason := pyStripStr reason
      source := pyStripStr source
      comments := pyStripStr comments
      created_date := now }
  ({ t with restricted_parties := t.restricted_parties ++ [party] }, party)

/-- Model of `update_customer`: find the first customer with the given id,
merge the payload into it and stamp `modified_date`; `none` when absent. -/
def update_customer (t : Tool) (customer_id : Int) (data : CustomerPatch)
    (now : String) : Tool × Option Customer :=
  let r := updateFirst (fun c => c.id = customer_id)
    (fun c => applyCustomerPatch c data now) t.customers
  match r.1 with
  | some c => ({ t with customers := r.2 }, some c)
  | none => (t, none)

/-- Model of `update_restricted_party`. -/
def update_restricted_party (t : Tool) (party_id : Int) (data : PartyPatch)
    (now : String) : Tool × Option RestrictedParty :=
  let r := updateFirst (fun p => p.id = party_id)
    (fun p => applyPartyPatch p data now) t.restricted_parties
  match r.1 with
  | some p => ({ t with restricted_parties := r.2 }, some p)
  | none => (t, none)

/-- Model of the DELETE branch of `api_update_customer`: pop the first
customer with the given id; matches are not touched. -/
def delete_customer (t : Tool) (customer_id : Int) : Tool × Option Customer :=
  let r := deleteFirst (fun c => c.id = customer_id) t.customers
  match r.1 with
  | some c => ({ t with customers := r.2 }, some c)
  | none => (t, none)

/-- Model of the DELETE branch of `api_update_restricted_party`. -/
def delete_restricted_party (t : Tool) (party_id : Int) : Tool × Option RestrictedParty :=
  let r := deleteFirst (fun p => p.id = party_id) t.restricted_parties
  match r.1 with
  | some p => ({ t with restricted_parties := r.2 }, some p)
  | none => (t, none)

/-- Model of `find_similar_matches`: full cross product, record emitted when
`threshold <= similarity < 1.0`; the emitted dict has no `hold_type` key. -/
def find_similar_matches (t : Tool) (now : String) (threshold : ℚ := 3 / 10) :
    List MatchRec :=
  t.customers.flatMap fun customer =>
    t.restricted_parties.filterMap fun party =>
      let similarity := calculate_similarity customer.name party.name
      if threshold ≤ similarity ∧ similarity < 1 then
        some { customer := customer
               restricted_party := party
               similarity := similarity
               match_type := "similar"
               hold_type := none
               match_date := now }
      else none

/-- Model of `find_exact_matches`: full cross product, record emitted when
the lowercased, stripped names coincide; `hold_type` is present and null. -/
def find_exact_matches (t : Tool) (now : String) : List MatchRec :=
  t.customers.flatMap fun customer =>
    t.restricted_parties.filterMap fun party =>
      if lowerStrip customer.name = lowerStrip party.name then
        some { customer := customer
               restricted_party := party
               similarity := 1
               match_type := "exact"
               hold_type := some none
               match_date := now }
      else none

/-- Model of `run_screening`: the stored match list is wholesale replaced by
the exact-pass results followed by the similar-pass results (default
threshold). -/
def run_screening (t : Tool) (now : String) : Tool × List MatchRec :=
  let exact_results := find_exact_matches t now
  let similar_results := find_similar_matches t now
  let all_results := exact_results ++ similar_results
  ({ t with matches' := all_results }, all_results)

/-- Model of `update_hold_type`: in-range index updates the record's
`hold_type` (and `dtype` when the argument is truthy, i.e. a non-empty
string) and returns `True`; out of range returns `False` untouched. -/
def update_hold_type (t : Tool) (match_index : Int) (hold_type : String)
    (dtype : Option String) : Tool × Bool :=
  if 0 ≤ match_index ∧ match_index < (t.matches'.length : Int) then
    let i := match_index.toNat
    let m := t.matches'.getD i default
    let m' := { m with
      hold_type := some (some hold_type)
      dtype := match dtype with
               | some s => if s = "" then m.dtype else some s
               | none => m.dtype }
    ({ t with matches' := t.matches'.set i m' }, true)
  else (t, false)

/-!
Import adapter.  A parsed spreadsheet is a header row plus rows of cells;
a cell is `none` when the column is absent from the row or the value is NaN
(`pd.notna` fails), mirroring `str(row.get(col, '')).strip() if
pd.notna(row.get(col)) else ''`.
-/

/-- Lookup of a cell by column name in a parsed row. -/
def getCell (row : List (String × Option String)) (col : String) : Option String :=
  match row.find? (fun kv => kv.1 = col) with
  | some kv => kv.2
  | none => none

/-- String value of a cell as the importers compute it: stripped value, or
the empty string for an absent/NaN cell. -/
def cellStr (row : List (String × Option String)) (col : String) : String :=
  match getCell row col with
  | some v => pyStripStr v
  | none => ""

/-- Parsed spreadsheet: column header and data rows. -/
structure DataFrame where
  columns : List String
  rows : List (List (String × Option String))
deriving DecidableEq, Repr, Inhabited

/-- Row loop of `import_customers_from_excel`: a non-empty name imports a
customer, an empty name records a soft error naming the spreadsheet row
(`index + 2` counts the header row and 1-based display). -/
def importCustomersLoop (now : String) :
    List (List (String × Option String)) → Nat → Tool → Nat → List String →
    Tool × Nat × List String
  | [], _, t, imported_count, errors => (t, imported_count, errors)
  | row :: rest, index, t, imported_count, errors =>
    let name := cellStr row "Name"
    if name ≠ "" then
      importCustomersLoop now rest (index + 1)
        (add_customer t name (cellStr row "Address") (cellStr row "Phone")
          (cellStr row "Email") (cellStr row "Comments") now).1
        (imported_count + 1) errors
    else
      importCustomersLoop now rest (index + 1) t imported_count
        (errors ++ ["Row " ++ toString (index + 2) ++ ": Name is empty"])

/-- Model of `import_customers_from_excel`: hard failure when the required
`Name` column is missing (nothing imported, message naming missing and
available columns), otherwise the row loop with the source's error
summaries.  Per-row exceptions cannot arise in the pure model; the reachable
soft-error path is the empty-name row. -/
def import_customers_from_excel (t : Tool) (df : DataFrame) (now : String) :
    Tool × Nat × Option String :=
  let required_columns := ["Name"]
  let missing_columns := required_columns.filter fun col => ¬ df.columns.contains col
  if missing_columns ≠ [] then
    (t, 0, some ("Missing required columns: " ++ String.intercalate ", " missing_columns ++
      ". Available columns: " ++ String.intercalate ", " df.columns))
  else
    let r := importCustomersLoop now df.rows 0 t 0 []
    let imported_count := r.2.1
    let errors := r.2.2
    if errors ≠ [] ∧ imported_count = 0 then
      (r.1, 0, some ("No customers imported. Errors: " ++
        String.intercalate "; " (errors.take 5)))
    else if errors ≠ [] then
      (r.1, imported_count, some ("Imported " ++ toString imported_count ++
        " customers with some errors: " ++ String.intercalate "; " (errors.take 3)))
    else
      (r.1, imported_count, none)

/-- Row loop of `import_restricted_parties_from_excel`: non-empty names are
imported, empty names are silently skipped, no errors are collected. -/
def importPartiesLoop (now : String) :
    List (List (String × Option String)) → Tool → Nat → Tool × Nat
  | [], t, imported_count => (t, imported_count)
  | row :: rest, t, imported_count =>
    let name := cellStr row "Name"
    if name ≠ "" then
      importPartiesLoop now rest
        (add_restricted_party t name (cellStr row "Reason") (cellStr row "Source")
          (cellStr row "Comments") now).1
        (imported_count + 1)
    else
      importPartiesLoop now rest t imported_count

/-- Model of `import_restricted_parties_from_excel`: no required-column
check and no per-row error collection; the error component is always
`none` in the pure model (the source's `except` covers only file I/O). -/
def import_restricted_parties_from_excel (t : Tool) (df : DataFrame) (now : String) :
    Tool × Nat × Option String :=
  let r := importPartiesLoop now df.rows t 0
  (r.1, r.2, none)

/-- Soft errors the customer import row loop accumulates: one message per
empty-name row, naming the spreadsheet row (`index + 2`), in row order.
Spec-side description of the loop's error accumulator. -/
def emptyNameErrors (index : Nat) : List (List (String × Option String)) → List String
  | [] => []
  | row :: rest =>
    if cellStr row "Name" = "" then
      ("Row " ++ toString (index + 2) ++ ": Name is empty") :: emptyNameErrors (index + 1) rest
    else
      emptyNameErrors (index + 1) rest

/-- Customer-major, party-minor cross-product order of (customer, party)
pairs; spec-side reference for the ordering statement of the screening
passes. -/
def crossPairs (cs : List Customer) (ps : List RestrictedParty) :
    List (Customer × RestrictedParty) :=
  cs.flatMap fun c => ps.map fun p => (c, p)

/-!
Reference-semantics model.  The Python match dicts store the very dict
objects held in `self.customers` / `self.restricted_parties` (no copy is
taken), and `update_customer` mutates the found dict in place.  To reason
about this aliasing the object graph is made explicit: entity dicts live in
heap lists (`custCells`, `partyCells`), and both the entity lists and the
match records hold cell indices.
-/

/-- Match record of the reference model: `customer` and `restricted_party`
are heap-cell indices, not copies. -/
structure ORecord where
  customer : Nat
  restricted_party : Nat
  similarity : ℚ
  match_type : String
  hold_type : Option (Option String)
  dtype : Option String := none
  match_date : String
deriving DecidableEq, Repr, Inhabited

/-- Object-graph state of the tool: heap cells plus the three lists. -/
structure OTool where
  custCells : List Customer
  partyCells : List RestrictedParty
  customers : List Nat
  restricted_parties : List Nat
  matches' : List ORecord
deriving DecidableEq, Repr, Inhabited

/-- Dereference a customer cell. -/
def derefCustomer (s : OTool) (r : Nat) : Customer :=
  s.custCells.getD r default

/-- Dereference a restricted-party cell. -/
def derefParty (s : OTool) (r : Nat) : RestrictedParty :=
  s.partyCells.getD r default

/-- Reference-model `find_exact_matches`: the emitted record stores the cell
indices of the pair. -/
def ofind_exact_matches (s : OTool) (now : String) : List ORecord :=
  s.customers.flatMap fun cr =>
    s.restricted_parties.filterMap fun pr =>
      if lowerStrip (derefCustomer s cr).name = lowerStrip (derefParty s pr).name then
        some { customer := cr
               restricted_party := pr
               similarity := 1
               match_type := "exact"
               hold_type := some none
               match_date := now }
      else none

/-- Reference-model `find_similar_matches`. -/
def ofind_similar_matches (s : OTool) (now : String) (threshold : ℚ := 3 / 10) :
    List ORecord :=
  s.customers.flatMap fun cr =>
    s.restricted_parties.filterMap fun pr =>
      let similarity := calculate_similarity (derefCustomer s cr).name (derefParty s pr).name
      if threshold ≤ similarity ∧ similarity < 1 then
        some { customer := cr
               restricted_party := pr
               similarity := similarity
               match_type := "similar"
               hold_type := none
               match_date := now }
      else none

/-- Reference-model `run_screening`. -/
def orun_screening (s : OTool) (now : String) : OTool × List ORecord :=
  let all_results := ofind_exact_matches s now ++ ofind_similar_matches s now
  ({ s with matches' := all_results }, all_results)

/-- Reference-model `update_customer`: find the first live customer cell with
the given id and mutate that cell in place (`customer.update(data)`). -/
def oupdate_customer (s : OTool) (customer_id : Int) (data : CustomerPatch)
    (now : String) : OTool × Option Customer :=
  match s.customers.find? (fun r => (derefCustomer s r).id = customer_id) with
  | some r =>
    let c' := applyCustomerPatch (derefCustomer s r) data now
    ({ s with custCells := s.custCells.set r c' }, some c')
  | none => (s, none)

/-- Matching condition of the dynamic program at positions `(i, j)` of the
pair `(a, a)`: both positions exist, the characters agree, and the `b`-side
character is not popular.  Proof-side gadget. -/
def chainCond (pop : Char → Bool) (a : List Char) (i j : Nat) : Bool :=
  match a.get? i, a.get? j with
  | some ci, some cj => decide (cj = ci) && !(pop cj)
  | _, _ => false

/-- Chain length of the dynamic program on the pair `(a, a)`: the number of
consecutive matching positions ending at `(i, j)`.  Describes the rows of
`lcsLoop` when both sequences are the same list.  Proof-side gadget. -/
def runLen (pop : Char → Bool) (a : List Char) : Nat → Nat → Nat
  | 0, 0 => if chainCond pop a 0 0 then 1 else 0
  | 0, j + 1 => if chainCond pop a 0 (j + 1) then 1 else 0
  | i + 1, 0 => if chainCond pop a (i + 1) 0 then 1 else 0
  | i + 1, j + 1 => if chainCond pop a (i + 1) (j + 1) then runLen pop a i j + 1 else 0

/-- Expected contents of the previous row when the loop is about to process
row `i` of a self-comparison: all zeroes before the first row, then the
chain lengths of row `i - 1`.  Proof-side gadget. -/
def prevSpec (pop : Char → Bool) (a : List Char) (i j : Nat) : Nat :=
  match i with
  | 0 => 0
  | Nat.succ i' => runLen pop a i' j

/-!
Lemma layer.  First the theory of the `find_longest_match` model, leading to
`findLongestMatch pop a a = (0, 0, a.length)` and hence
`calculate_similarity x x = 1`.
-/

/-- Value of the head with default equals the entry at index 0. -/
theorem headD_eq_getD (l : List Nat) : l.headD 0 = l.getD 0 0 := by
  cases l <;> rfl

/-- Entry of the tail shifts the index by one. -/
theorem tail_getD (l : List Nat) (m : Nat) : l.tail.getD m 0 = l.getD (m + 1) 0 := by
  cases l <;> simp [List.getD]

/-- Pointwise description of one dynamic-programming row. -/
theorem newRow_getD (pop : Char → Bool) (c : Char) :
    ∀ (b : List Char) (prev : List Nat) (carry j : Nat),
    (newRow pop c b prev carry).getD j 0 =
      match b.get? j with
      | some x =>
        if x = c ∧ pop x = false then
          (if j = 0 then carry else prev.getD (j - 1) 0) + 1
        else 0
      | none => 0
  | [], prev, carry, j => by
    rw [newRow]
    cases j <;> rfl
  | x :: bs, prev, carry, 0 => by
    rw [newRow, List.getD_cons_zero]
    rfl
  | x :: bs, prev, carry, j + 1 => by
    rw [newRow, List.getD_cons_succ, newRow_getD pop c bs prev.tail (prev.headD 0) j,
      List.get?_cons_succ]
    cases hbj : bs.get? j with
    | none => rfl
    | some y =>
      dsimp only
      by_cases hy : y = c ∧ pop y = false
      · rw [if_pos hy, if_pos hy]
        congr 1
        cases j with
        | zero => rw [if_neg (Nat.succ_ne_zero 0)]; exact headD_eq_getD prev
        | succ j' =>
          rw [if_neg (Nat.succ_ne_zero j'), if_neg (Nat.succ_ne_zero (j' + 1))]
          exact tail_getD prev j'
      · rw [if_neg hy, if_neg hy]

/-- Length of a dynamic-programming row equals the length of `b`. -/
theorem newRow_length (pop : Char → Bool) (c : Char) :
    ∀ (b : List Char) (prev : List Nat) (carry : Nat),
    (newRow pop c b prev carry).length = b.length
  | [], _, _ => rfl
  | _ :: bs, prev, carry => by
    show (_ :: newRow pop c bs prev.tail (prev.headD 0)).length = bs.length + 1
    rw [List.length_cons, newRow_length pop c bs prev.tail (prev.headD 0)]

/-- Matching at `(i, j)` forces matching on the diagonal at `(j, j)`. -/
theorem chainCond_diag_right {pop : Char → Bool} {a : List Char} {i j : Nat}
    (h : chainCond pop a i j = true) : chainCond pop a j j = true := by
  unfold chainCond at h ⊢
  cases hai : a.get? i with
  | none => rw [hai] at h; exact Bool.noConfusion h
  | some ci =>
    rw [hai] at h
    cases hbj : a.get? j with
    | none => rw [hbj] at h; exact Bool.noConfusion h
    | some cj =>
      rw [hbj] at h
      have h' : (decide (cj = ci) && !(pop cj)) = true := h
      simp only [Bool.and_eq_true] at h'
      show (decide (cj = cj) && !(pop cj)) = true
      rw [decide_eq_true rfl, h'.2]
      rfl

/-- Matching at `(i, j)` forces matching on the diagonal at `(i, i)`. -/
theorem chainCond_diag_left {pop : Char → Bool} {a : List Char} {i j : Nat}
    (h : chainCond pop a i j = true) : chainCond pop a i i = true := by
  unfold chainCond at h ⊢
  cases hai : a.get? i with
  | none => rw [hai] at h; exact Bool.noConfusion h
  | some ci =>
    rw [hai] at h
    cases hbj : a.get? j with
    | none => rw [hbj] at h; exact Bool.noConfusion h
    | some cj =>
      rw [hbj] at h
      have h' : (decide (cj = ci) && !(pop cj)) = true := h
      simp only [Bool.and_eq_true] at h'
      have hcc : cj = ci := of_decide_eq_true h'.1
      show (decide (ci = ci) && !(pop ci)) = true
      rw [decide_eq_true rfl, ← hcc, h'.2]
      rfl

/-- Chain lengths are bounded by the row index plus one. -/
theorem runLen_le (pop : Char → Bool) (a : List Char) :
    ∀ i j, runLen pop a i j ≤ i + 1 := by
  intro i
  induction i with
  | zero => intro j; cases j <;> (rw [runLen]; split <;> omega)
  | succ i ih =>
    intro j
    cases j with
    | zero => rw [runLen]; split <;> omega
    | succ j =>
      rw [runLen]
      split
      · have := ih j; omega
      · omega

/-- Any chain ending at `(i, j)` is dominated by the diagonal chain at
`(j, j)`. -/
theorem runLen_le_diag_right (pop : Char → Bool) (a : List Char) :
    ∀ i j, runLen pop a i j ≤ runLen pop a j j := by
  intro i
  induction i with
  | zero =>
    intro j
    cases j with
    | zero => exact Nat.le_refl _
    | succ j =>
      rw [runLen, runLen]
      split
      · next h => rw [if_pos (chainCond_diag_right h)]; omega
      · omega
  | succ i ih =>
    intro j
    cases j with
    | zero =>
      rw [runLen, runLen]
      split
      · next h => rw [if_pos (chainCond_diag_right h)]
      · omega
    | succ j =>
      rw [runLen, runLen]
      split
      · next h =>
        rw [if_pos (chainCond_diag_right h)]
        have := ih j
        omega
      · omega

/-- Any chain ending at `(i, j)` is dominated by the diagonal chain at
`(i, i)`. -/
theorem runLen_le_diag_left (pop : Char → Bool) (a : List Char) :
    ∀ i j, runLen pop a i j ≤ runLen pop a i i := by
  intro i
  induction i with
  | zero =>
    intro j
    cases j with
    | zero => exact Nat.le_refl _
    | succ j =>
      rw [runLen, runLen]
      split
      · next h => rw [if_pos (chainCond_diag_left h)]
      · omega
  | succ i ih =>
    intro j
    cases j with
    | zero =>
      rw [runLen, runLen]
      split
      · next h => rw [if_pos (chainCond_diag_left h)]; omega
      · omega
    | succ j =>
      rw [runLen, runLen]
      split
      · next h =>
        rw [if_pos (chainCond_diag_left h)]
        have := ih j
        omega
      · omega

/-- Chain length is zero when the column is out of range. -/
theorem runLen_of_right_none (pop : Char → Bool) (a : List Char) (i j : Nat)
    (h : a.get? j = none) : runLen pop a i j = 0 := by
  have hcf : chainCond pop a i j = false := by
    unfold chainCond
    cases hai : a.get? i
    · rfl
    · rw [h]
  cases i <;> cases j <;> rw [runLen] <;> simp [hcf]

/-- Scanning a row none of whose entries beats the current best leaves the
best unchanged. -/
theorem rowBest_none (i : Nat) :
    ∀ (ks : List Nat) (j : Nat) (best : Nat × Nat × Nat),
    (∀ m, ks.getD m 0 ≤ best.2.2) → rowBest i ks j best = best
  | [], j, best, _ => rfl
  | k :: ks, j, best, h => by
    have hk : k ≤ best.2.2 := by have := h 0; rwa [List.getD_cons_zero] at this
    rw [rowBest, if_neg (Nat.not_lt.mpr hk)]
    exact rowBest_none i ks (j + 1) best fun m => by
      have := h (m + 1); rwa [List.getD_cons_succ] at this

/-- Characterisation of the row scan on a self-comparison row: when every
entry left of the diagonal is at most the current best and every entry right
of the diagonal is dominated by the diagonal entry, the scan either keeps
the best or moves it to the diagonal entry. -/
theorem rowBest_self_char (i : Nat) :
    ∀ (ks : List Nat) (j : Nat) (best : Nat × Nat × Nat),
    j ≤ i →
    (∀ m, j + m < i → ks.getD m 0 ≤ best.2.2) →
    (∀ m, i < j + m → ks.getD m 0 ≤ max best.2.2 (ks.getD (i - j) 0)) →
    rowBest i ks j best =
      if best.2.2 < ks.getD (i - j) 0 then
        (i + 1 - ks.getD (i - j) 0, i + 1 - ks.getD (i - j) 0, ks.getD (i - j) 0)
      else best
  | [], j, best, _, _, _ => by
    rw [show ([] : List Nat).getD (i - j) 0 = 0 from rfl,
      if_neg (Nat.not_lt.mpr (Nat.zero_le _))]
    rfl
  | k :: ks, j, best, hji, hlow, hhigh => by
    rcases Nat.lt_or_ge j i with hj | hj
    · -- strictly left of the diagonal: the head cannot beat the best
      have hk : k ≤ best.2.2 := by
        have := hlow 0 (by omega); rwa [List.getD_cons_zero] at this
      have hij : i - j = (i - (j + 1)) + 1 := by omega
      rw [rowBest, if_neg (Nat.not_lt.mpr hk), hij, List.getD_cons_succ]
      exact rowBest_self_char i ks (j + 1) best (by omega)
        (fun m hm => by
          have := hlow (m + 1) (by omega); rwa [List.getD_cons_succ] at this)
        (fun m hm => by
          have := hhigh (m + 1) (by omega)
          rwa [List.getD_cons_succ, hij, List.getD_cons_succ] at this)
    · -- at the diagonal
      have hji' : j = i := Nat.le_antisymm hji hj
      subst hji'
      rw [Nat.sub_self, List.getD_cons_zero, rowBest]
      by_cases hbk : best.2.2 < k
      · rw [if_pos hbk]
        exact rowBest_none j ks (j + 1) _ fun m => by
          have := hhigh (m + 1) (by omega)
          rw [List.getD_cons_succ] at this
          rw [Nat.sub_self, List.getD_cons_zero] at this
          calc ks.getD m 0 ≤ max best.2.2 k := this
            _ = k := Nat.max_eq_right (Nat.le_of_lt hbk)
      · rw [if_neg hbk]
        exact rowBest_none j ks (j + 1) best fun m => by
          have := hhigh (m + 1) (by omega)
          rw [List.getD_cons_succ] at this
          rw [Nat.sub_self, List.getD_cons_zero] at this
          calc ks.getD m 0 ≤ max best.2.2 k := this
            _ = best.2.2 := Nat.max_eq_left (Nat.not_lt.mp hbk)

/-- Description of row `i` of the dynamic program on the pair `(a, a)`: when
`prev` is row `i - 1` (described by `runLen`, or all zeroes for `i = 0`), the
new row computed from the character `c = a[i]` is described by `runLen` at
row `i`. -/
theorem newRow_runLen (pop : Char → Bool) (a : List Char) (c : Char) (i : Nat)
    (hc : a.get? i = some c) (prev : List Nat)
    (hprev : ∀ j, prev.getD j 0 = prevSpec pop a i j) :
    ∀ j, (newRow pop c a prev 0).getD j 0 = runLen pop a i j := by
  intro j
  rw [newRow_getD]
  cases haj : a.get? j with
  | none => rw [runLen_of_right_none pop a i j haj]
  | some x =>
    dsimp only
    have hcc : chainCond pop a i j = (decide (x = c) && !(pop x)) := by
      unfold chainCond
      rw [hc, haj]
    by_cases hcond : x = c ∧ pop x = false
    · rw [if_pos hcond]
      have hcct : chainCond pop a i j = true := by
        rw [hcc, decide_eq_true hcond.1, hcond.2]
        rfl
      cases i with
      | zero =>
        cases j with
        | zero => rw [runLen, if_pos hcct, if_pos rfl]
        | succ j' =>
          rw [runLen, if_pos hcct, if_neg (Nat.succ_ne_zero j')]
          simp only [Nat.add_sub_cancel]
          rw [hprev j']
          rfl
      | succ i' =>
        cases j with
        | zero => rw [runLen, if_pos hcct, if_pos rfl]
        | succ j' =>
          rw [runLen, if_pos hcct, if_neg (Nat.succ_ne_zero j')]
          simp only [Nat.add_sub_cancel]
          rw [hprev j']
          rfl
    · rw [if_neg hcond]
      have hccf : ¬ (chainCond pop a i j = true) := by
        rw [hcc]
        rcases not_and_or.mp hcond with hx | hp
        · rw [decide_eq_false hx, Bool.false_and]
          exact Bool.false_ne_true
        · have hpx : pop x = true := by
            revert hp
            cases pop x <;> simp
          rw [hpx]
          simp
      cases i <;> cases j <;> rw [runLen, if_neg hccf]

/-- Invariant of the outer loop on the pair `(a, a)`: starting at row
`i = pre.length` with `prev` the previous row and a diagonal best whose block
lies inside the processed prefix and dominates all processed diagonals, the
final best is diagonal and its block lies inside `a`.  The key step is that
on a self-comparison every update of the scan happens on the diagonal:
off-diagonal chains are dominated by diagonal ones (`runLen_le_diag_right`,
`runLen_le_diag_left`), and dominated entries never update
(`rowBest_self_char`). -/
theorem lcsLoop_self_inv (pop : Char → Bool) (a : List Char) :
    ∀ (suf pre : List Char) (i : Nat) (prev : List Nat) (best : Nat × Nat × Nat),
    a = pre ++ suf → i = pre.length →
    (∀ j, prev.getD j 0 = prevSpec pop a i j) →
    best.1 = best.2.1 →
    best.1 + best.2.2 ≤ i →
    (∀ i', i' < i → runLen pop a i' i' ≤ best.2.2) →
    (lcsLoop pop suf a i prev best).1 = (lcsLoop pop suf a i prev best).2.1 ∧
    (lcsLoop pop suf a i prev best).1 + (lcsLoop pop suf a i prev best).2.2 ≤ a.length
  | [], pre, i, prev, best, ha, hi, hprev, hdiag, hsum, hcov => by
    refine ⟨hdiag, ?_⟩
    have hlen : a.length = pre.length := by rw [ha, List.append_nil]
    show best.1 + best.2.2 ≤ a.length
    omega
  | c :: rest, pre, i, prev, best, ha, hi, hprev, hdiag, hsum, hcov => by
    have hc : a.get? i = some c := by
      rw [ha, hi, List.get?_append_right (Nat.le_refl pre.length), Nat.sub_self]
      rfl
    set row := newRow pop c a prev 0 with hrow
    have hrowc : ∀ j, row.getD j 0 = runLen pop a i j :=
      newRow_runLen pop a c i hc prev hprev
    have hchar := rowBest_self_char i row 0 best (Nat.zero_le i)
      (fun m hm => by
        rw [hrowc m]
        exact le_trans (runLen_le_diag_right pop a i m) (hcov m (by omega)))
      (fun m _ => by
        rw [hrowc m, Nat.sub_zero, hrowc i]
        exact le_trans (runLen_le_diag_left pop a i m) (le_max_right _ _))
    rw [Nat.sub_zero] at hchar
    rw [hrowc i] at hchar
    have hDle : runLen pop a i i ≤ i + 1 := runLen_le pop a i i
    have hunfold : lcsLoop pop (c :: rest) a i prev best
        = lcsLoop pop rest a (i + 1) row (rowBest i row 0 best) := rfl
    rw [hunfold, hchar]
    have ha' : a = (pre ++ [c]) ++ rest := by
      rw [ha, List.append_assoc]
      rfl
    have hi' : i + 1 = (pre ++ [c]).length := by
      rw [List.length_append, List.length_cons, List.length_nil, hi]
    have hprev' : ∀ j, row.getD j 0 = prevSpec pop a (i + 1) j :=
      fun j => by rw [hrowc j]; rfl
    by_cases hbk : best.2.2 < runLen pop a i i
    · rw [if_pos hbk]
      refine lcsLoop_self_inv pop a rest (pre ++ [c]) (i + 1) row _ ha' hi' hprev'
        rfl (by dsimp only; omega) ?_
      intro i'' hi''
      rcases Nat.lt_or_ge i'' i with h2 | h2
      · exact le_trans (hcov i'' h2) (Nat.le_of_lt hbk)
      · have : i'' = i := by omega
        rw [this]
    · rw [if_neg hbk]
      refine lcsLoop_self_inv pop a rest (pre ++ [c]) (i + 1) row best ha' hi' hprev'
        hdiag (by omega) ?_
      intro i'' hi''
      rcases Nat.lt_or_ge i'' i with h2 | h2
      · exact hcov i'' h2
      · have : i'' = i := by omega
        rw [this]
        exact Nat.not_lt.mp hbk

/-- Common prefix of a list with itself is the whole list. -/
theorem commonPrefixLen_self : ∀ l : List Char, commonPrefixLen l l = l.length
  | [] => rfl
  | x :: xs => by rw [commonPrefixLen, if_pos rfl, commonPrefixLen_self xs, List.length_cons]

/-- On a self-comparison, `find_longest_match` returns the whole sequence:
the dynamic program leaves a diagonal best block, and the two extension
loops then grow it over the (always equal, junk-free) adjacent characters to
the full length. -/
theorem findLongestMatch_self (pop : Char → Bool) (a : List Char) :
    findLongestMatch pop a a = (0, 0, a.length) := by
  obtain ⟨hdiag, hsum⟩ := lcsLoop_self_inv pop a a [] 0 [] (0, 0, 0)
    (by rw [List.nil_append]) rfl (fun j => by cases j <;> rfl) rfl (Nat.le_refl 0)
    (fun i' h => absurd h (Nat.not_lt_zero i'))
  rcases hL : lcsLoop pop a a 0 [] (0, 0, 0) with ⟨b1, b2, b3⟩
  rw [hL] at hdiag hsum
  dsimp only at hdiag hsum
  subst hdiag
  unfold findLongestMatch
  rw [hL]
  dsimp only
  rw [commonPrefixLen_self, List.length_reverse, List.length_take]
  have hb1 : b1 ≤ a.length := by omega
  rw [Nat.min_eq_left hb1, Nat.sub_self, commonPrefixLen_self, List.length_drop]
  have hE : b3 + b1 + (a.length - (0 + (b3 + b1))) = a.length := by omega
  rw [hE]

/-- Matching blocks of two empty sequences have total size zero. -/
theorem matchTotalF_nil (pop : Char → Bool) :
    ∀ fuel : Nat, matchTotalF pop fuel [] [] = 0
  | 0 => rfl
  | fuel + 1 => by
    rw [matchTotalF]
    rw [findLongestMatch_self pop []]
    rfl

/-- With at least two units of fuel, the matching blocks of a self-comparison
cover the whole sequence. -/
theorem matchTotalF_self (pop : Char → Bool) (a : List Char) (fuel : Nat) :
    matchTotalF pop (fuel + 2) a a = a.length := by
  rw [matchTotalF, findLongestMatch_self pop a]
  dsimp only
  by_cases hz : a.length = 0
  · rw [if_pos hz, hz]
  · rw [if_neg hz, List.take_zero, Nat.zero_add, List.drop_length, matchTotalF_nil]
    omega

/-- Self-comparison of any character list scores ratio `1`:
`M = n` and `T = 2 n`, or the empty-empty special case of
`_calculate_ratio`. -/
theorem ratio_self (pop : Char → Bool) (l : List Char) :
    calculate_ratio (matchTotal pop l l) (l.length + l.length) = 1 := by
  have hm : matchTotal pop l l = l.length := by
    unfold matchTotal
    by_cases hz : l.length = 0
    · have hnil : l = [] := List.length_eq_zero.mp hz
      subst hnil
      rfl
    · have h2 : l.length + l.length = (l.length + l.length - 2) + 2 := by omega
      rw [h2, matchTotalF_self pop l]
  rw [hm]
  unfold calculate_ratio
  by_cases hz : l.length = 0
  · rw [if_neg (by omega)]
  · rw [if_pos (by omega)]
    have hl : ((l.length : ℚ)) ≠ 0 := by exact_mod_cast hz
    field_simp
    ring

/-- Similarity of any string with itself is `1`, empty or not and however
long: either the dynamic program finds a (necessarily diagonal) block, or
autojunk has emptied `b2j`, and in both cases the extension loops grow the
match to the full string. -/
theorem calculate_similarity_self (x : String) : calculate_similarity x x = 1 := by
  unfold calculate_similarity
  exact ratio_self (bpopular (x.data.map Char.toLower)) (x.data.map Char.toLower)

/-- Similarity below one forces distinct names: the contrapositive of
`calculate_similarity_self` used by the similar-pass characterisation. -/
theorem name_ne_of_similarity_lt_one {x y : String}
    (h : calculate_similarity x y < 1) : x ≠ y := by
  intro hxy
  subst hxy
  rw [calculate_similarity_self] at h
  exact lt_irrefl 1 h

/-- Evaluation helper: once the block total is known, the similarity is the
corresponding ratio. -/
theorem calculate_similarity_eval (x y : String) (M : Nat)
    (hM : matchTotal (bpopular (y.data.map Char.toLower)) (x.data.map Char.toLower)
      (y.data.map Char.toLower) = M) :
    calculate_similarity x y =
      calculate_ratio M
        ((x.data.map Char.toLower).length + (y.data.map Char.toLower).length) := by
  show calculate_ratio
      (matchTotal (bpopular (y.data.map Char.toLower)) (x.data.map Char.toLower)
        (y.data.map Char.toLower))
      ((x.data.map Char.toLower).length + (y.data.map Char.toLower).length) = _
  rw [hM]

/-- Membership in the exact pass: exactly the cross-product pairs whose
lowercased, stripped names agree, with the record fully determined. -/
theorem mem_find_exact_matches (t : Tool) (now : String) (m : MatchRec) :
    m ∈ find_exact_matches t now ↔
      ∃ c ∈ t.customers, ∃ p ∈ t.restricted_parties,
        lowerStrip c.name = lowerStrip p.name ∧
        m = { customer := c, restricted_party := p, similarity := 1,
              match_type := "exact", hold_type := some none, match_date := now } := by
  unfold find_exact_matches
  rw [List.mem_flatMap]
  constructor
  · rintro ⟨c, hc, hm⟩
    rw [List.mem_filterMap] at hm
    obtain ⟨p, hp, hmp⟩ := hm
    by_cases hcond : lowerStrip c.name = lowerStrip p.name
    · rw [if_pos hcond] at hmp
      exact ⟨c, hc, p, hp, hcond, (Option.some.inj hmp).symm⟩
    · rw [if_neg hcond] at hmp
      exact Option.noConfusion hmp
  · rintro ⟨c, hc, p, hp, hcond, hm⟩
    refine ⟨c, hc, ?_⟩
    rw [List.mem_filterMap]
    exact ⟨p, hp, by rw [if_pos hcond, hm]⟩

/-- Membership in the similar pass: exactly the cross-product pairs whose
similarity lies in `[threshold, 1)`, with the record fully determined. -/
theorem mem_find_similar_matches (t : Tool) (now : String) (threshold : ℚ) (m : MatchRec) :
    m ∈ find_similar_matches t now threshold ↔
      ∃ c ∈ t.customers, ∃ p ∈ t.restricted_parties,
        (threshold ≤ calculate_similarity c.name p.name ∧
          calculate_similarity c.name p.name < 1) ∧
        m = { customer := c, restricted_party := p,
              similarity := calculate_similarity c.name p.name,
              match_type := "similar", hold_type := none, match_date := now } := by
  unfold find_similar_matches
  rw [List.mem_flatMap]
  constructor
  · rintro ⟨c, hc, hm⟩
    rw [List.mem_filterMap] at hm
    obtain ⟨p, hp, hmp⟩ := hm
    dsimp only at hmp
    by_cases hcond : threshold ≤ calculate_similarity c.name p.name ∧
        calculate_similarity c.name p.name < 1
    · rw [if_pos hcond] at hmp
      exact ⟨c, hc, p, hp, hcond, (Option.some.inj hmp).symm⟩
    · rw [if_neg hcond] at hmp
      exact Option.noConfusion hmp
  · rintro ⟨c, hc, p, hp, hcond, hm⟩
    refine ⟨c, hc, ?_⟩
    rw [List.mem_filterMap]
    refine ⟨p, hp, ?_⟩
    dsimp only
    rw [if_pos hcond, hm]

/-- Mapping a filter-map is a sublist of mapping the whole list, provided the
two maps agree on kept elements. -/
theorem map_filterMap_sublist {α β γ : Type} (f : α → Option β) (g : β → γ) (h : α → γ)
    (l : List α) (H : ∀ a b, f a = some b → g b = h a) :
    ((l.filterMap f).map g).Sublist (l.map h) := by
  induction l with
  | nil => exact List.Sublist.refl _
  | cons a l ih =>
    rw [List.map_cons]
    cases hfa : f a with
    | none =>
      rw [List.filterMap_cons_none hfa]
      exact (ih).cons _
    | some b =>
      rw [List.filterMap_cons_some hfa, List.map_cons, H a b hfa]
      exact (ih).cons₂ _

/-- Pointwise sublists lift through `flatMap`. -/
theorem flatMap_sublist_flatMap {α β : Type} (f g : α → List β) (l : List α)
    (H : ∀ a ∈ l, (f a).Sublist (g a)) : (l.flatMap f).Sublist (l.flatMap g) := by
  induction l with
  | nil => exact List.Sublist.refl _
  | cons a l ih =>
    rw [List.flatMap_cons, List.flatMap_cons]
    exact (H a (List.mem_cons_self a l)).append
      (ih fun x hx => H x (List.mem_cons_of_mem a hx))

/-- Pairs of the exact pass appear in customer-major, party-minor
cross-product order. -/
theorem find_exact_matches_pairs_sublist (t : Tool) (now : String) :
    ((find_exact_matches t now).map fun m => (m.customer, m.restricted_party)).Sublist
      (crossPairs t.customers t.restricted_parties) := by
  unfold find_exact_matches crossPairs
  rw [List.map_flatMap]
  refine flatMap_sublist_flatMap _ _ _ fun c _ => ?_
  refine map_filterMap_sublist _ _ _ _ fun p m hm => ?_
  by_cases hcond : lowerStrip c.name = lowerStrip p.name
  · rw [if_pos hcond] at hm
    rw [← Option.some.inj hm]
  · rw [if_neg hcond] at hm
    exact Option.noConfusion hm

/-- Pairs of the similar pass appear in customer-major, party-minor
cross-product order. -/
theorem find_similar_matches_pairs_sublist (t : Tool) (now : String) (threshold : ℚ) :
    ((find_similar_matches t now threshold).map
        fun m => (m.customer, m.restricted_party)).Sublist
      (crossPairs t.customers t.restricted_parties) := by
  unfold find_similar_matches crossPairs
  rw [List.map_flatMap]
  refine flatMap_sublist_flatMap _ _ _ fun c _ => ?_
  refine map_filterMap_sublist _ _ _ _ fun p m hm => ?_
  dsimp only at hm
  by_cases hcond : threshold ≤ calculate_similarity c.name p.name ∧
      calculate_similarity c.name p.name < 1
  · rw [if_pos hcond] at hm
    rw [← Option.some.inj hm]
  · rw [if_neg hcond] at hm
    exact Option.noConfusion hm

/-- Reading back a just-written list entry. -/
theorem getD_set_self {α : Type} :
    ∀ (l : List α) (i : Nat) (x d : α), i < l.length → (l.set i x).getD i d = x
  | [], i, x, d, h => absurd h (Nat.not_lt_zero i)
  | a :: l, 0, x, d, _ => rfl
  | a :: l, i + 1, x, d, h => by
    rw [List.set_cons_succ, List.getD_cons_succ]
    exact getD_set_self l i x d (Nat.lt_of_succ_lt_succ h)

/-- Writing one list entry leaves the others unchanged. -/
theorem getD_set_ne {α : Type} :
    ∀ (l : List α) (i j : Nat) (x d : α), j ≠ i → (l.set i x).getD j d = l.getD j d
  | [], i, j, x, d, _ => rfl
  | a :: l, 0, 0, x, d, h => absurd rfl h
  | a :: l, 0, j + 1, x, d, _ => by
    rw [List.set_cons_zero, List.getD_cons_succ, List.getD_cons_succ]
  | a :: l, i + 1, 0, x, d, _ => by
    rw [List.set_cons_succ, List.getD_cons_zero, List.getD_cons_zero]
  | a :: l, i + 1, j + 1, x, d, h => by
    rw [List.set_cons_succ, List.getD_cons_succ, List.getD_cons_succ]
    exact getD_set_ne l i j x d (fun hji => h (by rw [hji]))

/-- The element returned by `updateFirst` is the image of the first element
satisfying the predicate. -/
theorem updateFirst_fst {α : Type} (p : α → Bool) (f : α → α) :
    ∀ l : List α, (updateFirst p f l).1 = (l.find? p).map f
  | [] => rfl
  | a :: l => by
    rw [updateFirst]
    by_cases ha : p a
    · rw [if_pos ha, List.find?_cons_of_pos l ha]
      rfl
    · rw [if_neg ha, List.find?_cons_of_neg l ha]
      exact updateFirst_fst p f l

/-- After updating the unique element satisfying `p` with a function that
destroys the property, no element satisfies `p` any more. -/
theorem updateFirst_find?_none {α : Type} (p : α → Bool) (f : α → α) :
    ∀ l : List α, l.countP p = 1 → (∀ a, p a = true → p (f a) = false) →
    ((updateFirst p f l).2).find? p = none
  | [], hcount, _ => by
    rw [List.countP_nil] at hcount
    exact absurd hcount Nat.zero_ne_one
  | a :: l, hcount, hf => by
    rw [updateFirst]
    by_cases ha : p a
    · rw [if_pos ha]
      have hcl : l.countP p = 0 := by
        rw [List.countP_cons_of_pos p l ha] at hcount
        omega
      rw [List.find?_cons_of_neg _ (by rw [hf a ha]; exact Bool.false_ne_true)]
      exact List.find?_eq_none.mpr fun x hx hpx =>
        (List.countP_eq_zero.mp hcl x hx) hpx
    · rw [if_neg ha]
      have hcl : l.countP p = 1 := by
        rw [List.countP_cons_of_neg p l ha] at hcount
        exact hcount
      rw [List.find?_cons_of_neg _ ha]
      exact updateFirst_find?_none p f l hcl hf

/-- Deleting an entity never touches the stored match list. -/
theorem delete_customer_matches (t : Tool) (cid : Int) :
    (delete_customer t cid).1.matches' = t.matches' := by
  unfold delete_customer
  rcases hr : deleteFirst (fun c => c.id = cid) t.customers with ⟨r1, r2⟩
  rw [hr]
  cases r1 <;> rfl

/-- Deleting a restricted party never touches the stored match list. -/
theorem delete_restricted_party_matches (t : Tool) (pid : Int) :
    (delete_restricted_party t pid).1.matches' = t.matches' := by
  unfold delete_restricted_party
  rcases hr : deleteFirst (fun p => p.id = pid) t.restricted_parties with ⟨r1, r2⟩
  rw [hr]
  cases r1 <;> rfl

/-- Invariant of the customer import row loop: rows with a non-empty name
each append one customer and bump the count, rows with an empty name each
append one error message; the other collections are untouched and the batch
is never aborted. -/
theorem importCustomersLoop_spec (now : String) :
    ∀ (rows : List (List (String × Option String))) (index : Nat) (t : Tool)
      (imported_count : Nat) (errors : List String),
    (importCustomersLoop now rows index t imported_count errors).2.1 =
      imported_count + rows.countP (fun row => decide (cellStr row "Name" ≠ "")) ∧
    (importCustomersLoop now rows index t imported_count errors).1.customers.length =
      t.customers.length + rows.countP (fun row => decide (cellStr row "Name" ≠ "")) ∧
    (importCustomersLoop now rows index t imported_count errors).2.2.length =
      errors.length + rows.countP (fun row => decide (cellStr row "Name" = "")) ∧
    (importCustomersLoop now rows index t imported_count errors).1.restricted_parties =
      t.restricted_parties ∧
    (importCustomersLoop now rows index t imported_count errors).1.matches' =
      t.matches' := by
  intro rows
  induction rows with
  | nil =>
    intro index t imported_count errors
    refine ⟨?_, ?_, ?_, rfl, rfl⟩ <;> simp [importCustomersLoop]
  | cons row rest ih =>
    intro index t imported_count errors
    rw [importCustomersLoop]
    by_cases hname : cellStr row "Name" ≠ ""
    · rw [if_pos hname]
      obtain ⟨h1, h2, h3, h4, h5⟩ := ih (index + 1)
        (add_customer t (cellStr row "Name") (cellStr row "Address") (cellStr row "Phone")
          (cellStr row "Email") (cellStr row "Comments") now).1
        (imported_count + 1) errors
      have hlen : (add_customer t (cellStr row "Name") (cellStr row "Address")
          (cellStr row "Phone") (cellStr row "Email")
          (cellStr row "Comments") now).1.customers.length = t.customers.length + 1 := by
        simp [add_customer]
      have hrp : (add_customer t (cellStr row "Name") (cellStr row "Address")
          (cellStr row "Phone") (cellStr row "Email")
          (cellStr row "Comments") now).1.restricted_parties = t.restricted_parties := rfl
      have hmm : (add_customer t (cellStr row "Name") (cellStr row "Address")
          (cellStr row "Phone") (cellStr row "Email")
          (cellStr row "Comments") now).1.matches' = t.matches' := rfl
      rw [List.countP_cons_of_pos _ rest (decide_eq_true hname),
        List.countP_cons_of_neg _ rest
          (by simp only [decide_eq_true_eq]; exact fun h => hname (by rw [h]))]
      exact ⟨by omega, by omega, by omega, by rw [h4, hrp], by rw [h5, hmm]⟩
    · rw [if_neg hname]
      have hname' : cellStr row "Name" = "" := not_not.mp hname
      obtain ⟨h1, h2, h3, h4, h5⟩ := ih (index + 1) t imported_count
        (errors ++ ["Row " ++ toString (index + 2) ++ ": Name is empty"])
      have herr : (errors ++ ["Row " ++ toString (index + 2) ++ ": Name is empty"]).length
          = errors.length + 1 := by simp
      rw [List.countP_cons_of_neg _ rest (by simp only [decide_eq_true_eq]; exact hname),
        List.countP_cons_of_pos _ rest (decide_eq_true hname')]
      exact ⟨by omega, by omega, by omega, h4, h5⟩

/-- The customer import row loop accumulates exactly one soft error per
empty-name row, appended in row order. -/
theorem importCustomersLoop_errors (now : String) :
    ∀ (rows : List (List (String × Option String))) (index : Nat) (t : Tool)
      (imported_count : Nat) (errors : List String),
    (importCustomersLoop now rows index t imported_count errors).2.2 =
      errors ++ emptyNameErrors index rows := by
  intro rows
  induction rows with
  | nil =>
    intro index t imported_count errors
    rw [importCustomersLoop, emptyNameErrors, List.append_nil]
  | cons row rest ih =>
    intro index t imported_count errors
    rw [importCustomersLoop, emptyNameErrors]
    by_cases hname : cellStr row "Name" ≠ ""
    · rw [if_pos hname, if_neg (fun h => hname (by rw [h])), ih]
    · have hname' : cellStr row "Name" = "" := not_not.mp hname
      rw [if_neg hname, if_pos hname', ih, List.append_assoc]
      rfl

/-- One soft error per empty-name row. -/
theorem emptyNameErrors_length :
    ∀ (rows : List (List (String × Option String))) (index : Nat),
    (emptyNameErrors index rows).length =
      rows.countP (fun row => decide (cellStr row "Name" = "")) := by
  intro rows
  induction rows with
  | nil => intro index; rfl
  | cons row rest ih =>
    intro index
    rw [emptyNameErrors]
    by_cases hname : cellStr row "Name" = ""
    · rw [if_pos hname, List.countP_cons_of_pos _ rest (decide_eq_true hname),
        List.length_cons, ih]
    · rw [if_neg hname,
        List.countP_cons_of_neg _ rest (by simp only [decide_eq_true_eq]; exact hname), ih]

/-- Invariant of the restricted-party import row loop: rows with a non-empty
name each append one party; empty names are silently skipped, and no errors
exist at all. -/
theorem importPartiesLoop_spec (now : String) :
    ∀ (rows : List (List (String × Option String))) (t : Tool) (imported_count : Nat),
    (importPartiesLoop now rows t imported_count).2 =
      imported_count + rows.countP (fun row => decide (cellStr row "Name" ≠ "")) ∧
    (importPartiesLoop now rows t imported_count).1.restricted_parties.length =
      t.restricted_parties.length + rows.countP (fun row => decide (cellStr row "Name" ≠ "")) ∧
    (importPartiesLoop now rows t imported_count).1.customers = t.customers ∧
    (importPartiesLoop now rows t imported_count).1.matches' = t.matches' := by
  intro rows
  induction rows with
  | nil =>
    intro t imported_count
    refine ⟨?_, ?_, rfl, rfl⟩ <;> simp [importPartiesLoop]
  | cons row rest ih =>
    intro t imported_count
    rw [importPartiesLoop]
    by_cases hname : cellStr row "Name" ≠ ""
    · rw [if_pos hname]
      obtain ⟨h1, h2, h3, h4⟩ := ih
        (add_restricted_party t (cellStr row "Name") (cellStr row "Reason")
          (cellStr row "Source") (cellStr row "Comments") now).1
        (imported_count + 1)
      have hlen : (add_restricted_party t (cellStr row "Name") (cellStr row "Reason")
          (cellStr row "Source")
          (cellStr row "Comments") now).1.restricted_parties.length =
          t.restricted_parties.length + 1 := by
        simp [add_restricted_party]
      have hcu : (add_restricted_party t (cellStr row "Name") (cellStr row "Reason")
          (cellStr row "Source")
          (cellStr row "Comments") now).1.customers = t.customers := rfl
      have hmm : (add_restricted_party t (cellStr row "Name") (cellStr row "Reason")
          (cellStr row "Source")
          (cellStr row "Comments") now).1.matches' = t.matches' := rfl
      rw [List.countP_cons_of_pos _ rest (decide_eq_true hname)]
      exact ⟨by omega, by omega, by rw [h3, hcu], by rw [h4, hmm]⟩
    · rw [if_neg hname]
      obtain ⟨h1, h2, h3, h4⟩ := ih t imported_count
      rw [List.countP_cons_of_neg _ rest (by simp only [decide_eq_true_eq]; exact hname)]
      exact ⟨h1, h2, h3, h4⟩

/-- Mutation through the alias: after `update_customer` finds and patches the
cell `r`, every match record whose `customer` field is that same cell index
dereferences to the patched customer. -/
theorem oupdate_customer_mutates (s : OTool) (cid : Int) (d : CustomerPatch) (now : String)
    (r : Nat) (hfind : s.customers.find? (fun r' => (derefCustomer s r').id = cid) = some r)
    (hr : r < s.custCells.length) :
    ∀ m ∈ s.matches', m.customer = r →
      derefCustomer (oupdate_customer s cid d now).1 m.customer =
        applyCustomerPatch (derefCustomer s r) d now := by
  intro m _ hmr
  unfold oupdate_customer
  rw [hfind]
  dsimp only
  rw [hmr]
  unfold derefCustomer
  dsimp only
  exact getD_set_self _ _ _ _ hr

/-- Screening embeds live cell indices: the `customer` field of every record
produced by the reference-model screening run is a member of the live
customer list (no copy is taken). -/
theorem orun_screening_customer_mem (s : OTool) (now : String) :
    ∀ m ∈ (orun_screening s now).1.matches', m.customer ∈ s.customers := by
  intro m hm
  have happ : (orun_screening s now).1.matches' =
      ofind_exact_matches s now ++ ofind_similar_matches s now := rfl
  rw [happ, List.mem_append] at hm
  rcases hm with hm | hm
  · unfold ofind_exact_matches at hm
    rw [List.mem_flatMap] at hm
    obtain ⟨cr, hcr, hm⟩ := hm
    rw [List.mem_filterMap] at hm
    obtain ⟨pr, _, hmp⟩ := hm
    by_cases hcond : lowerStrip (derefCustomer s cr).name = lowerStrip (derefParty s pr).name
    · rw [if_pos hcond] at hmp
      rw [← Option.some.inj hmp]
      exact hcr
    · rw [if_neg hcond] at hmp
      exact Option.noConfusion hmp
  · unfold ofind_similar_matches at hm
    rw [List.mem_flatMap] at hm
    obtain ⟨cr, hcr, hm⟩ := hm
    rw [List.mem_filterMap] at hm
    obtain ⟨pr, _, hmp⟩ := hm
    dsimp only at hmp
    by_cases hcond : (3 : ℚ) / 10 ≤
        calculate_similarity (derefCustomer s cr).name (derefParty s pr).name ∧
        calculate_similarity (derefCustomer s cr).name (derefParty s pr).name < 1
    · rw [if_pos hcond] at hmp
      rw [← Option.some.inj hmp]
      exact hcr
    · rw [if_neg hcond] at hmp
      exact Option.noConfusion hmp

/-!
Claim theorems.
-/

/-- C1: for every customer and restricted party, the exact pass of screening
emits a match record if and only if the two names are equal after lowercasing
and trimming surrounding whitespace, and every record of the pass carries
similarity 1, match type "exact" and a null hold type. -/
theorem exact_pass_characterization :
    ∀ (t : Tool) (now : String) (c : Customer) (p : RestrictedParty),
    c ∈ t.customers → p ∈ t.restricted_parties →
    (((∃ m ∈ find_exact_matches t now, m.customer = c ∧ m.restricted_party = p) ↔
        lowerStrip c.name = lowerStrip p.name) ∧
      ∀ m ∈ find_exact_matches t now,
        m.similarity = 1 ∧ m.match_type = "exact" ∧ m.hold_type = some none) := by
  intro t now c p hc hp
  constructor
  · constructor
    · rintro ⟨m, hm, hmc, hmp⟩
      rw [mem_find_exact_matches] at hm
      obtain ⟨c', _, p', _, hcond, hmeq⟩ := hm
      rw [hmeq] at hmc hmp
      dsimp only at hmc hmp
      rw [← hmc, ← hmp]
      exact hcond
    · intro hcond
      exact ⟨_, (mem_find_exact_matches t now _).mpr ⟨c, hc, p, hp, hcond, rfl⟩, rfl, rfl⟩
  · intro m hm
    rw [mem_find_exact_matches] at hm
    obtain ⟨c', _, p', _, _, hmeq⟩ := hm
    rw [hmeq]
    exact ⟨rfl, rfl, rfl⟩

/-- Witness for C1 at the spec's own example: customer "Acme Corp" and party
" acme corp " produce an exact match. -/
theorem exact_pass_characterization_witness :
    ∃ m ∈ find_exact_matches
      ⟨[⟨1, "Acme Corp", "", "", "", "", "d0", none⟩],
       [⟨1, " acme corp ", "", "", "", "d0", none⟩], []⟩ "d1",
      m.customer = ⟨1, "Acme Corp", "", "", "", "", "d0", none⟩ ∧
      m.restricted_party = ⟨1, " acme corp ", "", "", "", "d0", none⟩ :=
  ((exact_pass_characterization _ "d1" _ _ (List.mem_singleton.mpr rfl)
    (List.mem_singleton.mpr rfl)).1).mpr (by decide)

/-- C2: for every customer and restricted party, the similar pass emits a
record exactly when `threshold <= similarity < 1`, inclusive at the lower
bound and exclusive at 1; every record of the pass is of type "similar",
has no hold-type key, stores the similarity of its pair, and identical
names never appear. -/
theorem similar_pass_characterization :
    ∀ (t : Tool) (threshold : ℚ) (now : String) (c : Customer) (p : RestrictedParty),
    c ∈ t.customers → p ∈ t.restricted_parties →
    (((∃ m ∈ find_similar_matches t now threshold,
          m.customer = c ∧ m.restricted_party = p) ↔
        (threshold ≤ calculate_similarity c.name p.name ∧
          calculate_similarity c.name p.name < 1)) ∧
      ∀ m ∈ find_similar_matches t now threshold,
        m.match_type = "similar" ∧ m.hold_type = none ∧
        m.similarity = calculate_similarity m.customer.name m.restricted_party.name ∧
        m.similarity < 1 ∧ m.customer.name ≠ m.restricted_party.name) := by
  intro t threshold now c p hc hp
  constructor
  · constructor
    · rintro ⟨m, hm, hmc, hmp⟩
      rw [mem_find_similar_matches] at hm
      obtain ⟨c', _, p', _, hcond, hmeq⟩ := hm
      rw [hmeq] at hmc hmp
      dsimp only at hmc hmp
      rw [← hmc, ← hmp]
      exact hcond
    · intro hcond
      exact ⟨_, (mem_find_similar_matches t now threshold _).mpr
        ⟨c, hc, p, hp, hcond, rfl⟩, rfl, rfl⟩
  · intro m hm
    rw [mem_find_similar_matches] at hm
    obtain ⟨c', _, p', _, hcond, hmeq⟩ := hm
    rw [hmeq]
    refine ⟨rfl, rfl, rfl, hcond.2, ?_⟩
    exact name_ne_of_similarity_lt_one hcond.2

/-- Witness for C2: "abc" against "abd" scores exactly 2/3, which lies in
`[3/10, 1)`, so the similar pass emits the pair. -/
theorem similar_pass_characterization_witness :
    ∃ m ∈ find_similar_matches
      ⟨[⟨1, "abc", "", "", "", "", "d0", none⟩],
       [⟨1, "abd", "", "", "", "d0", none⟩], []⟩ "d1" (3 / 10),
      m.customer = ⟨1, "abc", "", "", "", "", "d0", none⟩ ∧
      m.restricted_party = ⟨1, "abd", "", "", "", "d0", none⟩ := by
  have hs : calculate_similarity "abc" "abd" = 2 / 3 := by
    rw [calculate_similarity_eval "abc" "abd" 2 (by decide)]
    norm_num [calculate_ratio]
  exact ((similar_pass_characterization _ (3 / 10) "d1" _ _ (List.mem_singleton.mpr rfl)
    (List.mem_singleton.mpr rfl)).1).mpr (by rw [hs]; norm_num)

/-- C3: a screening run wholesale replaces the stored match list with the
exact-pass results followed by the similar-pass results; the result is
independent of the previous match list (so any hold-type annotations on it
are discarded: no record of a fresh run carries a hold string), and each
pass lists its records in customer-major, party-minor cross-product order. -/
theorem run_screening_replaces_matches :
    ∀ (t : Tool) (now : String),
    (run_screening t now).1.matches' =
      find_exact_matches t now ++ find_similar_matches t now ∧
    (run_screening t now).2 = (run_screening t now).1.matches' ∧
    (∀ ms : List MatchRec,
      (run_screening { t with matches' := ms } now).1.matches' =
        (run_screening t now).1.matches') ∧
    (∀ m ∈ (run_screening t now).1.matches', ∀ s : String,
      m.hold_type ≠ some (some s)) ∧
    ((find_exact_matches t now).map (fun m => (m.customer, m.restricted_party))).Sublist
      (crossPairs t.customers t.restricted_parties) ∧
    ((find_similar_matches t now).map (fun m => (m.customer, m.restricted_party))).Sublist
      (crossPairs t.customers t.restricted_parties) := by
  intro t now
  refine ⟨rfl, rfl, fun ms => rfl, ?_, find_exact_matches_pairs_sublist t now,
    find_similar_matches_pairs_sublist t now (3 / 10)⟩
  intro m hm s
  have hm' : m ∈ find_exact_matches t now ++ find_similar_matches t now := hm
  rw [List.mem_append] at hm'
  rcases hm' with hm' | hm'
  · rw [mem_find_exact_matches] at hm'
    obtain ⟨c', _, p', _, _, hmeq⟩ := hm'
    rw [hmeq]
    intro hcontra
    exact Option.noConfusion (Option.some.inj hcontra)
  · rw [mem_find_similar_matches] at hm'
    obtain ⟨c', _, p', _, _, hmeq⟩ := hm'
    rw [hmeq]
    intro hcontra
    exact Option.noConfusion hcontra

/-- Witness for C3: on a one-customer, one-party state the screening output
is the concatenation of the two passes, and a pre-existing match list with a
hold annotation does not influence the result. -/
theorem run_screening_replaces_matches_witness :
    (run_screening ⟨[⟨1, "acme", "", "", "", "", "d0", none⟩],
        [⟨1, "acme", "", "", "", "d0", none⟩], []⟩ "d1").1.matches' =
      find_exact_matches ⟨[⟨1, "acme", "", "", "", "", "d0", none⟩],
        [⟨1, "acme", "", "", "", "d0", none⟩], []⟩ "d1" ++
      find_similar_matches ⟨[⟨1, "acme", "", "", "", "", "d0", none⟩],
        [⟨1, "acme", "", "", "", "d0", none⟩], []⟩ "d1" ∧
    (run_screening ⟨[⟨1, "acme", "", "", "", "", "d0", none⟩],
        [⟨1, "acme", "", "", "", "d0", none⟩],
        [⟨⟨1, "acme", "", "", "", "", "d0", none⟩, ⟨1, "acme", "", "", "", "d0", none⟩,
          1, "exact", some (some "FULL HOLD"), none, "d0"⟩]⟩ "d1").1.matches' =
      (run_screening ⟨[⟨1, "acme", "", "", "", "", "d0", none⟩],
        [⟨1, "acme", "", "", "", "d0", none⟩], []⟩ "d1").1.matches' :=
  ⟨(run_screening_replaces_matches ⟨[⟨1, "acme", "", "", "", "", "d0", none⟩],
      [⟨1, "acme", "", "", "", "d0", none⟩], []⟩ "d1").1,
   (run_screening_replaces_matches ⟨[⟨1, "acme", "", "", "", "", "d0", none⟩],
      [⟨1, "acme", "", "", "", "d0", none⟩], []⟩ "d1").2.2.1
     [⟨⟨1, "acme", "", "", "", "", "d0", none⟩, ⟨1, "acme", "", "", "", "d0", none⟩,
       1, "exact", some (some "FULL HOLD"), none, "d0"⟩]⟩

/-- C4: the similarity score is reflexive (`similarity(x, x) = 1` for every
string, in particular every non-empty one) and case-insensitive, as on the
spec's example `similarity("Bob", "BOB") = 1`. -/
theorem similarity_reflexive_case_insensitive :
    (∀ x : String, x ≠ "" → calculate_similarity x x = 1) ∧
    calculate_similarity "Bob" "BOB" = 1 := by
  constructor
  · intro x _
    exact calculate_similarity_self x
  · rw [calculate_similarity_eval "Bob" "BOB" 3 (by decide)]
    norm_num [calculate_ratio]

/-- Witness for C4 at the non-empty string "Acme". -/
theorem similarity_reflexive_case_insensitive_witness :
    ("Acme" : String) ≠ "" ∧ calculate_similarity "Acme" "Acme" = 1 :=
  ⟨by decide, similarity_reflexive_case_insensitive.1 "Acme" (by decide)⟩

/-- Counterexample to C5 as stated: in the reference-semantics model (the
Python dicts in `self.matches`, which store the very dict objects of
`self.customers`), the match produced by a screening run dereferences to name
"acme" before the update and to "Evil Corp" after `update_customer` — the
embedded customer of the match record does not stay unchanged. -/
theorem match_snapshot_counterexample :
    (derefCustomer (orun_screening
        ⟨[⟨1, "acme", "", "", "", "", "d0", none⟩], [⟨1, "acme", "", "", "", "d0", none⟩],
         [0], [0], []⟩ "d1").1
      ((((orun_screening
        ⟨[⟨1, "acme", "", "", "", "", "d0", none⟩], [⟨1, "acme", "", "", "", "d0", none⟩],
         [0], [0], []⟩ "d1").1).matches'.getD 0 default).customer)).name = "acme" ∧
    (derefCustomer (oupdate_customer (orun_screening
        ⟨[⟨1, "acme", "", "", "", "", "d0", none⟩], [⟨1, "acme", "", "", "", "d0", none⟩],
         [0], [0], []⟩ "d1").1 1 ⟨none, some "Evil Corp", none, none, none, none⟩ "d2").1
      ((((oupdate_customer (orun_screening
        ⟨[⟨1, "acme", "", "", "", "", "d0", none⟩], [⟨1, "acme", "", "", "", "d0", none⟩],
         [0], [0], []⟩ "d1").1 1 ⟨none, some "Evil Corp", none, none, none, none⟩
        "d2").1).matches'.getD 0 default).customer)).name = "Evil Corp" ∧
    ("Evil Corp" : String) ≠ "acme" :=
  ⟨rfl, rfl, by decide⟩

/-- C5 amended: match records are references, not snapshots.  Mutating the
matched customer via `update_customer` is visible through the match record:
when the update patches the cell a match record points to, dereferencing the
record afterwards yields the patched customer; and every record produced by
a screening run points into the live customer list. -/
theorem match_records_alias_live_customers :
    (∀ (s : OTool) (cid : Int) (d : CustomerPatch) (now : String) (r : Nat),
      s.customers.find? (fun r' => (derefCustomer s r').id = cid) = some r →
      r < s.custCells.length →
      ∀ m ∈ s.matches', m.customer = r →
        derefCustomer (oupdate_customer s cid d now).1 m.customer =
          applyCustomerPatch (derefCustomer s r) d now) ∧
    (∀ (s : OTool) (now : String), ∀ m ∈ (orun_screening s now).1.matches',
      m.customer ∈ s.customers) :=
  ⟨fun s cid d now r hfind hr => oupdate_customer_mutates s cid d now r hfind hr,
   orun_screening_customer_mem⟩

/-- Witness for the amended C5: on a concrete one-match state, the update of
customer 1 is visible through the match record's reference. -/
theorem match_records_alias_live_customers_witness :
    derefCustomer (oupdate_customer
        ⟨[⟨1, "acme", "", "", "", "", "d0", none⟩], [⟨1, "acme", "", "", "", "d0", none⟩],
         [0], [0], [⟨0, 0, 1, "exact", some none, none, "d1"⟩]⟩
        1 ⟨none, some "Evil Corp", none, none, none, none⟩ "d2").1
      (ORecord.customer ⟨0, 0, 1, "exact", some none, none, "d1"⟩) =
    applyCustomerPatch (derefCustomer
        ⟨[⟨1, "acme", "", "", "", "", "d0", none⟩], [⟨1, "acme", "", "", "", "d0", none⟩],
         [0], [0], [⟨0, 0, 1, "exact", some none, none, "d1"⟩]⟩ 0)
      ⟨none, some "Evil Corp", none, none, none, none⟩ "d2" :=
  match_records_alias_live_customers.1
    ⟨[⟨1, "acme", "", "", "", "", "d0", none⟩], [⟨1, "acme", "", "", "", "d0", none⟩],
     [0], [0], [⟨0, 0, 1, "exact", some none, none, "d1"⟩]⟩
    1 ⟨none, some "Evil Corp", none, none, none, none⟩ "d2" 0 rfl (by decide)
    ⟨0, 0, 1, "exact", some none, none, "d1"⟩ (List.mem_singleton.mpr rfl) rfl

/-- C6: `update_hold_type` succeeds exactly when `0 <= index < len(matches)`;
out of range it reports failure (`False`, no exception) and leaves the state
untouched, in range it writes the hold type at that position and leaves
every other record and the length unchanged. -/
theorem update_hold_type_index_validation :
    ∀ (t : Tool) (match_index : Int) (hold_type : String) (dtype : Option String),
    ((update_hold_type t match_index hold_type dtype).2 = true ↔
      0 ≤ match_index ∧ match_index < (t.matches'.length : Int)) ∧
    ((update_hold_type t match_index hold_type dtype).2 = false →
      (update_hold_type t match_index hold_type dtype).1 = t) ∧
    (0 ≤ match_index ∧ match_index < (t.matches'.length : Int) →
      ((update_hold_type t match_index hold_type dtype).1.matches'.getD
          match_index.toNat default).hold_type = some (some hold_type) ∧
      (update_hold_type t match_index hold_type dtype).1.matches'.length =
        t.matches'.length ∧
      ∀ j : Nat, j ≠ match_index.toNat →
        (update_hold_type t match_index hold_type dtype).1.matches'.getD j default =
          t.matches'.getD j default) := by
  intro t match_index hold_type dtype
  by_cases hcond : 0 ≤ match_index ∧ match_index < (t.matches'.length : Int)
  · unfold update_hold_type
    rw [if_pos hcond]
    dsimp only
    have hlt : match_index.toNat < t.matches'.length := by omega
    refine ⟨⟨fun _ => hcond, fun _ => rfl⟩, fun h => Bool.noConfusion h, fun _ => ⟨?_, ?_, ?_⟩⟩
    · rw [getD_set_self _ _ _ _ hlt]
    · exact List.length_set t.matches' _ _
    · intro j hj
      exact getD_set_ne _ _ _ _ _ hj
  · unfold update_hold_type
    rw [if_neg hcond]
    dsimp only
    exact ⟨⟨fun h => Bool.noConfusion h, fun h => absurd h hcond⟩,
      fun _ => rfl, fun h => absurd h hcond⟩

/-- Witness for C6: index 0 of a one-match list succeeds and writes the hold
type; index 5 is reported as a failure and the state is untouched. -/
theorem update_hold_type_index_validation_witness :
    ((update_hold_type ⟨[], [], [⟨⟨1, "acme", "", "", "", "", "d0", none⟩,
        ⟨1, "acme", "", "", "", "d0", none⟩, 1, "exact", some none, none, "d1"⟩]⟩
      0 "Block" none).2 = true) ∧
    (((update_hold_type ⟨[], [], [⟨⟨1, "acme", "", "", "", "", "d0", none⟩,
        ⟨1, "acme", "", "", "", "d0", none⟩, 1, "exact", some none, none, "d1"⟩]⟩
      0 "Block" none).1.matches'.getD ((0 : Int).toNat) default).hold_type =
        some (some "Block")) ∧
    ((update_hold_type ⟨[], [], [⟨⟨1, "acme", "", "", "", "", "d0", none⟩,
        ⟨1, "acme", "", "", "", "d0", none⟩, 1, "exact", some none, none, "d1"⟩]⟩
      5 "Block" none).1 = ⟨[], [], [⟨⟨1, "acme", "", "", "", "", "d0", none⟩,
        ⟨1, "acme", "", "", "", "d0", none⟩, 1, "exact", some none, none, "d1"⟩]⟩) :=
  ⟨(update_hold_type_index_validation ⟨[], [], [⟨⟨1, "acme", "", "", "", "", "d0", none⟩,
        ⟨1, "acme", "", "", "", "d0", none⟩, 1, "exact", some none, none, "d1"⟩]⟩
      0 "Block" none).1.mpr ⟨by decide, by decide⟩,
   ((update_hold_type_index_validation ⟨[], [], [⟨⟨1, "acme", "", "", "", "", "d0", none⟩,
        ⟨1, "acme", "", "", "", "d0", none⟩, 1, "exact", some none, none, "d1"⟩]⟩
      0 "Block" none).2.2 ⟨by decide, by decide⟩).1,
   (update_hold_type_index_validation ⟨[], [], [⟨⟨1, "acme", "", "", "", "", "d0", none⟩,
        ⟨1, "acme", "", "", "", "d0", none⟩, 1, "exact", some none, none, "d1"⟩]⟩
      5 "Block" none).2.1
     (Bool.eq_false_iff.mpr fun h =>
       absurd ((update_hold_type_index_validation ⟨[], [],
          [⟨⟨1, "acme", "", "", "", "", "d0", none⟩, ⟨1, "acme", "", "", "", "d0", none⟩,
            1, "exact", some none, none, "d1"⟩]⟩ 5 "Block" none).1.mp h)
         (by decide))⟩

/-- C7: every created entity receives id `count + 1`, and after a deletion
the scheme assigns a duplicate: adding "A" and "B", deleting id 1 and adding
"C" leaves two distinct customers that both carry id 2. -/
theorem id_assignment_count_plus_one_and_collision :
    (∀ (t : Tool) (name address phone email comments now : String),
      (add_customer t name address phone email comments now).2.id =
        (t.customers.length : Int) + 1 ∧
      (add_customer t name address phone email comments now).1.customers =
        t.customers ++ [(add_customer t name address phone email comments now).2]) ∧
    (∀ (t : Tool) (name reason source comments now : String),
      (add_restricted_party t name reason source comments now).2.id =
        (t.restricted_parties.length : Int) + 1) ∧
    (let t4 := (add_customer (delete_customer (add_customer
        (add_customer ⟨[], [], []⟩ "A" "" "" "" "" "d1").1
        "B" "" "" "" "" "d2").1 1).1 "C" "" "" "" "" "d3").1
     t4.customers.map Customer.id = [2, 2] ∧
       t4.customers.getD 0 default ≠ t4.customers.getD 1 default) :=
  ⟨fun t name address phone email comments now => ⟨rfl, rfl⟩,
   fun t name reason source comments now => rfl,
   by decide⟩

/-- Counterexample to C8 as stated: for the restricted-party importer a batch
whose spreadsheet has no `Name` column (only "Foo") imports zero rows but
reports NO error at all — there is no message naming missing versus
available columns, because `import_restricted_parties_from_excel` performs
no column validation. -/
theorem import_missing_column_counterexample :
    (import_restricted_parties_from_excel ⟨[], [], []⟩
      ⟨["Foo"], [[("Foo", some "x")]]⟩ "d1").2.2 = none ∧
    (import_restricted_parties_from_excel ⟨[], [], []⟩
      ⟨["Foo"], [[("Foo", some "x")]]⟩ "d1").2.1 = 0 :=
  ⟨rfl, rfl⟩

/-- C8 amended: the customer importer treats a missing `Name` column as a
hard failure for the whole batch (nothing imported, message naming the
missing and the available columns) and otherwise accumulates empty-name rows
as soft errors without aborting: every non-empty-name row is imported, the
loop collects exactly one row-numbered error per empty-name row, and the
returned error component surfaces them (no message when there are none, the
partial-success summary quoting the first three when some rows imported, the
failure summary quoting the first five when none did); the restricted-party
importer performs no column validation and reports no errors: it imports the
non-empty-name rows and returns no message. -/
theorem import_column_check_customers_only :
    (∀ (t : Tool) (df : DataFrame) (now : String), "Name" ∉ df.columns →
      import_customers_from_excel t df now =
        (t, 0, some ("Missing required columns: " ++ String.intercalate ", " ["Name"] ++
          ". Available columns: " ++ String.intercalate ", " df.columns))) ∧
    (∀ (t : Tool) (df : DataFrame) (now : String), "Name" ∈ df.columns →
      (import_customers_from_excel t df now).2.1 =
        df.rows.countP (fun row => decide (cellStr row "Name" ≠ "")) ∧
      (import_customers_from_excel t df now).1.customers.length =
        t.customers.length +
          df.rows.countP (fun row => decide (cellStr row "Name" ≠ "")) ∧
      (importCustomersLoop now df.rows 0 t 0 []).2.2 = emptyNameErrors 0 df.rows ∧
      (df.rows.countP (fun row => decide (cellStr row "Name" = "")) = 0 →
        (import_customers_from_excel t df now).2.2 = none) ∧
      (df.rows.countP (fun row => decide (cellStr row "Name" = "")) ≠ 0 →
        df.rows.countP (fun row => decide (cellStr row "Name" ≠ "")) ≠ 0 →
        (import_customers_from_excel t df now).2.2 =
          some ("Imported " ++
            toString (df.rows.countP (fun row => decide (cellStr row "Name" ≠ ""))) ++
            " customers with some errors: " ++
            String.intercalate "; " ((emptyNameErrors 0 df.rows).take 3))) ∧
      (df.rows.countP (fun row => decide (cellStr row "Name" = "")) ≠ 0 →
        df.rows.countP (fun row => decide (cellStr row "Name" ≠ "")) = 0 →
        (import_customers_from_excel t df now).2.2 =
          some ("No customers imported. Errors: " ++
            String.intercalate "; " ((emptyNameErrors 0 df.rows).take 5)))) ∧
    (∀ (t : Tool) (df : DataFrame) (now : String),
      (import_restricted_parties_from_excel t df now).2.2 = none ∧
      (import_restricted_parties_from_excel t df now).2.1 =
        df.rows.countP (fun row => decide (cellStr row "Name" ≠ ""))) := by
  refine ⟨?_, ?_, ?_⟩
  · intro t df now h
    simp only [import_customers_from_excel]
    have hm : (["Name"].filter fun col => ¬ df.columns.contains col) = ["Name"] := by
      simp [h]
    rw [hm]
    rw [if_pos (by simp)]
  · intro t df now h
    simp only [import_customers_from_excel]
    have hm : (["Name"].filter fun col => ¬ df.columns.contains col) = [] := by
      simp [h]
    rw [hm]
    rw [if_neg (by simp)]
    obtain ⟨h1, h2, _, _, _⟩ := importCustomersLoop_spec now df.rows 0 t 0 []
    have herr : (importCustomersLoop now df.rows 0 t 0 []).2.2 = emptyNameErrors 0 df.rows := by
      rw [importCustomersLoop_errors now df.rows 0 t 0 [], List.nil_append]
    have hlen := emptyNameErrors_length df.rows 0
    by_cases hE : df.rows.countP (fun row => decide (cellStr row "Name" = "")) = 0
    · have herrnil : (importCustomersLoop now df.rows 0 t 0 []).2.2 = [] := by
        rw [herr]
        exact List.length_eq_zero.mp (by rw [hlen]; exact hE)
      rw [if_neg (fun hc => hc.1 herrnil), if_neg (fun hc => hc herrnil)]
      exact ⟨by dsimp only; omega, by dsimp only; omega, herr, fun _ => rfl,
        fun hne _ => absurd hE hne, fun hne _ => absurd hE hne⟩
    · have herrne : (importCustomersLoop now df.rows 0 t 0 []).2.2 ≠ [] := by
        rw [herr]
        intro hnil
        exact hE (by rw [← hlen, hnil]; rfl)
      by_cases hN : df.rows.countP (fun row => decide (cellStr row "Name" ≠ "")) = 0
      · have hcz : (importCustomersLoop now df.rows 0 t 0 []).2.1 = 0 := by omega
        rw [if_pos ⟨herrne, hcz⟩]
        refine ⟨by dsimp only; omega, by dsimp only; omega, herr,
          fun h0 => absurd h0 hE, fun _ hn => absurd hN hn, fun _ _ => ?_⟩
        dsimp only
        rw [herr]
      · have hcnz : (importCustomersLoop now df.rows 0 t 0 []).2.1 ≠ 0 := by omega
        rw [if_neg (fun hc => hcnz hc.2), if_pos herrne]
        refine ⟨by dsimp only; omega, by dsimp only; omega, herr,
          fun h0 => absurd h0 hE, fun _ _ => ?_, fun _ h0 => absurd h0 hN⟩
        dsimp only
        rw [herr]
        have hc : (importCustomersLoop now df.rows 0 t 0 []).2.1 =
            df.rows.countP (fun row => decide (cellStr row "Name" ≠ "")) := by omega
        rw [hc]
  · intro t df now
    obtain ⟨h1, _, _, _⟩ := importPartiesLoop_spec now df.rows t 0
    exact ⟨rfl, by rw [show (import_restricted_parties_from_excel t df now).2.1 =
      (importPartiesLoop now df.rows t 0).2 from rfl]; omega⟩

/-- Witness for the amended C8: on a spreadsheet with only a "Foo" column
the customer importer hard-fails with the column message while the
restricted-party importer reports no error; and on a three-row sheet whose
second row has no name, the customer importer imports the two named rows
and reports the one soft error naming row 3. -/
theorem import_column_check_customers_only_witness :
    import_customers_from_excel ⟨[], [], []⟩ ⟨["Foo"], [[("Foo", some "x")]]⟩ "d1" =
      (⟨[], [], []⟩, 0, some ("Missing required columns: " ++
        String.intercalate ", " ["Name"] ++
        ". Available columns: " ++ String.intercalate ", " ["Foo"])) ∧
    (import_customers_from_excel ⟨[], [], []⟩
      ⟨["Name"], [[("Name", some "Alice")], [("Name", none)],
        [("Name", some "Bob")]]⟩ "d1").2.1 = 2 ∧
    (import_customers_from_excel ⟨[], [], []⟩
      ⟨["Name"], [[("Name", some "Alice")], [("Name", none)],
        [("Name", some "Bob")]]⟩ "d1").2.2 =
      some "Imported 2 customers with some errors: Row 3: Name is empty" ∧
    (import_restricted_parties_from_excel ⟨[], [], []⟩
      ⟨["Foo"], [[("Foo", some "x")]]⟩ "d1").2.2 = none := by
  have h := import_column_check_customers_only.2.1 ⟨[], [], []⟩
    ⟨["Name"], [[("Name", some "Alice")], [("Name", none)],
      [("Name", some "Bob")]]⟩ "d1" (by decide)
  refine ⟨import_column_check_customers_only.1 ⟨[], [], []⟩
      ⟨["Foo"], [[("Foo", some "x")]]⟩ "d1" (by decide), ?_, ?_,
    (import_column_check_customers_only.2.2 ⟨[], [], []⟩
      ⟨["Foo"], [[("Foo", some "x")]]⟩ "d1").1⟩
  · rw [h.1]
    decide
  · rw [h.2.2.2.2.1 (by decide) (by decide)]
    decide

/-- C9: the update operations merge every key of the patch with no field
protection, `id` included: when the patch carries a new id different from
the looked-up one (and the id was unique), the updated entity carries the
new id and a subsequent lookup by the original id reports not-found. -/
theorem update_patch_can_change_id :
    (∀ (t : Tool) (cid : Int) (d : CustomerPatch) (now : String) (nid : Int),
      d.id = some nid → nid ≠ cid →
      t.customers.countP (fun c => c.id = cid) = 1 →
      (update_customer t cid d now).1.customers.find? (fun c => c.id = cid) = none ∧
      (update_customer t cid d now).2.map Customer.id = some nid) ∧
    (∀ (t : Tool) (pid : Int) (d : PartyPatch) (now : String) (nid : Int),
      d.id = some nid → nid ≠ pid →
      t.restricted_parties.countP (fun p => p.id = pid) = 1 →
      (update_restricted_party t pid d now).1.restricted_parties.find?
        (fun p => p.id = pid) = none ∧
      (update_restricted_party t pid d now).2.map RestrictedParty.id = some nid) := by
  constructor
  · intro t cid d now nid hd hne hcount
    have hid : ∀ c : Customer, (applyCustomerPatch c d now).id = nid := by
      intro c
      show d.id.getD c.id = nid
      rw [hd]
      rfl
    have hdestroy : ∀ c : Customer, (fun c : Customer => decide (c.id = cid)) c = true →
        (fun c : Customer => decide (c.id = cid)) (applyCustomerPatch c d now) = false := by
      intro c _
      show decide ((applyCustomerPatch c d now).id = cid) = false
      rw [hid c]
      exact decide_eq_false hne
    unfold update_customer
    rcases hr : updateFirst (fun c => decide (c.id = cid))
      (fun c => applyCustomerPatch c d now) t.customers with ⟨r1, r2⟩
    rw [hr]
    have hfst : r1 = (t.customers.find? (fun c => decide (c.id = cid))).map
        (fun c => applyCustomerPatch c d now) := by
      rw [← updateFirst_fst (fun c : Customer => decide (c.id = cid))
        (fun c => applyCustomerPatch c d now) t.customers, hr]
    cases hfind : t.customers.find? (fun c => decide (c.id = cid)) with
    | none =>
      exfalso
      obtain ⟨c0, hc0, hpc0⟩ := List.countP_pos.mp
        (show 0 < t.customers.countP (fun c => decide (c.id = cid)) by omega)
      exact (List.find?_eq_none.mp hfind c0 hc0) hpc0
    | some c0 =>
      rw [hfind] at hfst
      rw [hfst]
      dsimp only
      constructor
      · show r2.find? (fun c : Customer => decide (c.id = cid)) = none
        have hsnd : r2 = (updateFirst (fun c : Customer => decide (c.id = cid))
            (fun c => applyCustomerPatch c d now) t.customers).2 := by rw [hr]
        rw [hsnd]
        exact updateFirst_find?_none _ _ t.customers hcount hdestroy
      · show some (applyCustomerPatch c0 d now).id = some nid
        rw [hid c0]
  · intro t pid d now nid hd hne hcount
    have hid : ∀ p : RestrictedParty, (applyPartyPatch p d now).id = nid := by
      intro p
      show d.id.getD p.id = nid
      rw [hd]
      rfl
    have hdestroy : ∀ p : RestrictedParty,
        (fun p : RestrictedParty => decide (p.id = pid)) p = true →
        (fun p : RestrictedParty => decide (p.id = pid)) (applyPartyPatch p d now) = false := by
      intro p _
      show decide ((applyPartyPatch p d now).id = pid) = false
      rw [hid p]
      exact decide_eq_false hne
    unfold update_restricted_party
    rcases hr : updateFirst (fun p => decide (p.id = pid))
      (fun p => applyPartyPatch p d now) t.restricted_parties with ⟨r1, r2⟩
    rw [hr]
    have hfst : r1 = (t.restricted_parties.find? (fun p => decide (p.id = pid))).map
        (fun p => applyPartyPatch p d now) := by
      rw [← updateFirst_fst (fun p : RestrictedParty => decide (p.id = pid))
        (fun p => applyPartyPatch p d now) t.restricted_parties, hr]
    cases hfind : t.restricted_parties.find? (fun p => decide (p.id = pid)) with
    | none =>
      exfalso
      obtain ⟨p0, hp0, hpp0⟩ := List.countP_pos.mp
        (show 0 < t.restricted_parties.countP (fun p => decide (p.id = pid)) by omega)
      exact (List.find?_eq_none.mp hfind p0 hp0) hpp0
    | some p0 =>
      rw [hfind] at hfst
      rw [hfst]
      dsimp only
      constructor
      · show r2.find? (fun p : RestrictedParty => decide (p.id = pid)) = none
        have hsnd : r2 = (updateFirst (fun p : RestrictedParty => decide (p.id = pid))
            (fun p => applyPartyPatch p d now) t.restricted_parties).2 := by rw [hr]
        rw [hsnd]
        exact updateFirst_find?_none _ _ t.restricted_parties hcount hdestroy
      · show some (applyPartyPatch p0 d now).id = some nid
        rw [hid p0]

/-- Witness for C9: patching customer 1 with id 7 makes lookup of id 1 fail
afterwards and returns the entity with id 7. -/
theorem update_patch_can_change_id_witness :
    (update_customer ⟨[⟨1, "acme", "", "", "", "", "d0", none⟩], [], []⟩ 1
      ⟨some 7, none, none, none, none, none⟩ "d2").1.customers.find?
      (fun c => c.id = 1) = none ∧
    (update_customer ⟨[⟨1, "acme", "", "", "", "", "d0", none⟩], [], []⟩ 1
      ⟨some 7, none, none, none, none, none⟩ "d2").2.map Customer.id = some 7 :=
  update_patch_can_change_id.1 ⟨[⟨1, "acme", "", "", "", "", "d0", none⟩], [], []⟩ 1
    ⟨some 7, none, none, none, none, none⟩ "d2" 7 rfl (by decide) (by decide)

/-- C10: deleting a customer or a restricted party leaves the stored match
list entirely unchanged, so records referencing the deleted entity remain
until a screening run replaces the list. -/
theorem delete_preserves_matches :
    ∀ (t : Tool) (cid pid : Int),
    (delete_customer t cid).1.matches' = t.matches' ∧
    (delete_restricted_party t pid).1.matches' = t.matches' :=
  fun t cid pid => ⟨delete_customer_matches t cid, delete_restricted_party_matches t pid⟩
